import Mathlib

/-!
Shallow embedding of the langchain-community adapter sources:
the Upstash vector-store adapter (addVectors / similaritySearchVectorWithScore /
delete), the Redis byte-store key prefixing, and the Postgres chat-message-history
constructor.  JavaScript runtime values that the adapters actually inspect are
modelled explicitly: objects as insertion-ordered association lists with
JS spread/rest semantics, `undefined` as a dedicated value, and string/array
truthiness as in JS.
-/

namespace LangchainCommunity

/-- A JS runtime value as it can appear in a metadata record.  The adapters
never inspect metadata values (they are pass-through), so a flat value domain
with decidable equality is an adequate model; `undef` models `undefined`. -/
inductive JValue where
  | undef : JValue
  | null : JValue
  | bool (b : Bool) : JValue
  | num (n : Int) : JValue
  | str (s : String) : JValue
  deriving DecidableEq, Repr

/-- A JS object, modelled as an insertion-ordered association list.
Real JS objects have pairwise-distinct keys; theorems carry that
well-formedness as a Nodup hypothesis where it matters. -/
abbrev JObj : Type := List (String × JValue)

/-- The keys of a JS object, in insertion order. -/
def objKeys (o : JObj) : List String := o.map Prod.fst

/-- Property read `o[k]`: the value at the first occurrence of `k`. -/
def objLookup (o : JObj) (k : String) : Option JValue :=
  match o with
  | [] => none
  | p :: rest => if p.1 = k then some p.2 else objLookup rest k

/-- Property write `o[k] = v` as performed by object-literal evaluation:
if the key is already present the entry keeps its position and takes the new
value, otherwise the entry is appended. -/
def objSet (o : JObj) (k : String) (v : JValue) : JObj :=
  if k ∈ objKeys o then o.map (fun p => if p.1 = k then (k, v) else p)
  else o ++ [(k, v)]

/-- JS object-spread `{...base, ...src}`: copy the entries of `src` into
`base` one at a time, in order. -/
def objSpread (base src : JObj) : JObj :=
  src.foldl (fun acc p => objSet acc p.1 p.2) base

/-- Rest-destructuring `const { k, ...rest } = o`: `rest` keeps every entry
whose key differs from `k`, in order. -/
def objRemove (o : JObj) (k : String) : JObj :=
  o.filter (fun p => p.1 ≠ k)

/-- A toolkit document: `pageContent` plus a metadata record.  In the
TypeScript sources `pageContent` is typed `string`, but documents decoded from
query hits can carry `undefined` there, so the model uses `JValue`. -/
structure Document where
  pageContent : JValue
  metadata : JObj
  deriving DecidableEq, Repr

/-- The reserved metadata key `_pageContentLC` used by the Upstash adapter to
smuggle the document text through the sink's metadata record. -/
def pageContentKey : String := "_pageContentLC"

/-- The metadata built for one vector in `UpstashVectorStore.addVectors`
(part_000 lines 106-109): the object literal
`{ _pageContentLC: documents[index].pageContent, ...documents[index].metadata }`. -/
def encodeMetadata (d : Document) : JObj :=
  objSpread [(pageContentKey, d.pageContent)] d.metadata

/-- The decoding done per hit in
`UpstashVectorStore.similaritySearchVectorWithScore` (part_000 lines 178-185):
`const { _pageContentLC, ...metadata } = (res.metadata ?? {})`, then
`new Document({ metadata, pageContent: _pageContentLC })`. -/
def decodeHitDocument (metadata : Option JObj) : Document :=
  let raw := metadata.getD []
  { pageContent := (objLookup raw pageContentKey).getD JValue.undef
    metadata := objRemove raw pageContentKey }

/-! Helper lemmas about the JS object model. -/

theorem objKeys_append (a b : JObj) : objKeys (a ++ b) = objKeys a ++ objKeys b := by
  simp [objKeys]

theorem objSet_of_not_mem (o : JObj) (k : String) (v : JValue) (h : k ∉ objKeys o) :
    objSet o k v = o ++ [(k, v)] := by
  simp [objSet, h]

theorem objSet_cons_self (k : String) (x v : JValue) (m : JObj) (h : k ∉ objKeys m) :
    objSet ((k, x) :: m) k v = (k, v) :: m := by
  have hmem : k ∈ objKeys ((k, x) :: m) := by simp [objKeys]
  rw [objSet, if_pos hmem]
  simp only [List.map_cons, if_pos rfl]
  congr 1
  conv_rhs => rw [← List.map_id m]
  apply List.map_congr_left
  intro p hp
  have hne : p.1 ≠ k := by
    intro e
    exact h (List.mem_map.mpr ⟨p, hp, e⟩)
  simp [hne]

theorem objSpread_nil (base : JObj) : objSpread base [] = base := rfl

theorem objSpread_cons (base : JObj) (p : String × JValue) (src : JObj) :
    objSpread base (p :: src) = objSpread (objSet base p.1 p.2) src := rfl

theorem objSpread_append (base l₁ l₂ : JObj) :
    objSpread base (l₁ ++ l₂) = objSpread (objSpread base l₁) l₂ := by
  simp [objSpread, List.foldl_append]

theorem objSpread_of_fresh (base m : JObj)
    (hfresh : ∀ k ∈ objKeys m, k ∉ objKeys base)
    (hnd : (objKeys m).Nodup) :
    objSpread base m = base ++ m := by
  induction m generalizing base with
  | nil => simp [objSpread]
  | cons p rest ih =>
    have hp : p.1 ∉ objKeys base := hfresh p.1 (by simp [objKeys])
    rw [objSpread_cons, objSet_of_not_mem _ _ _ hp]
    have hnd0 : (p.1 :: objKeys rest).Nodup := by
      have hmk : objKeys (p :: rest) = p.1 :: objKeys rest := by simp [objKeys]
      rwa [hmk] at hnd
    obtain ⟨hhead, hnd'⟩ := List.nodup_cons.mp hnd0
    have hfresh' : ∀ k ∈ objKeys rest, k ∉ objKeys (base ++ [(p.1, p.2)]) := by
      intro k hk
      rw [objKeys_append]
      intro hmem
      rcases List.mem_append.mp hmem with hb | hs
      · exact hfresh k (by simp [objKeys] at hk ⊢; exact Or.inr hk) hb
      · have hkp : k = p.1 := by simpa [objKeys] using hs
        exact hhead (hkp ▸ hk)
    rw [ih _ hfresh' hnd']
    simp

theorem objRemove_of_not_mem (o : JObj) (k : String) (h : k ∉ objKeys o) :
    objRemove o k = o := by
  induction o with
  | nil => rfl
  | cons p rest ih =>
    have hne : p.1 ≠ k := by
      intro e
      exact h (by simp [objKeys, e])
    have hrest : k ∉ objKeys rest := by
      intro hk
      exact h (by simp [objKeys] at hk ⊢; exact Or.inr hk)
    simp [objRemove, hne] at ih ⊢
    exact ih hrest

theorem objRemove_cons_self (k : String) (v : JValue) (m : JObj) :
    objRemove ((k, v) :: m) k = objRemove m k := by
  simp [objRemove]

/-- The encoding of a document whose metadata avoids the reserved key is the
reserved entry followed by the caller metadata, unchanged. -/
theorem encodeMetadata_no_reserved (d : Document)
    (hR : pageContentKey ∉ objKeys d.metadata)
    (hnd : (objKeys d.metadata).Nodup) :
    encodeMetadata d = (pageContentKey, d.pageContent) :: d.metadata := by
  unfold encodeMetadata
  rw [objSpread_of_fresh]
  · rfl
  · intro k hk
    simp only [objKeys, List.map_cons, List.map_nil, List.mem_singleton]
    intro e
    exact hR (e ▸ hk)
  · exact hnd

/-- C2: for every Document whose metadata keys exclude the reserved text key
`_pageContentLC`, decoding (as in similaritySearchVectorWithScore) the encoding
(as in addVectors) is the identity: the round-trip is lossless in the text and
in every metadata key/value. -/
theorem c2_roundtrip_lossless (d : Document)
    (hR : pageContentKey ∉ objKeys d.metadata)
    (hnd : (objKeys d.metadata).Nodup) :
    decodeHitDocument (some (encodeMetadata d)) = d := by
  rw [encodeMetadata_no_reserved d hR hnd]
  unfold decodeHitDocument
  simp [objLookup, objRemove_cons_self, objRemove_of_not_mem _ _ hR]

/-- Witness for C2 at a concrete document. -/
theorem c2_roundtrip_lossless_witness :
    decodeHitDocument (some (encodeMetadata
        ⟨JValue.str "cat", [("color", JValue.str "black")]⟩)) =
      ⟨JValue.str "cat", [("color", JValue.str "black")]⟩ :=
  c2_roundtrip_lossless ⟨JValue.str "cat", [("color", JValue.str "black")]⟩
    (by decide) (by decide)

/-- C1 counterexample: for the document with text "cat" and metadata already
binding the reserved key `_pageContentLC` to "dog", the decoded text is not the
document's text — the spread `...documents[index].metadata` in addVectors is
evaluated after the reserved entry, so the caller's colliding value overwrites
the document text, contradicting the claim that document text wins. -/
theorem c1_text_wins_counterexample :
    (decodeHitDocument (some (encodeMetadata
        ⟨JValue.str "cat", [(pageContentKey, JValue.str "dog")]⟩))).pageContent ≠
      JValue.str "cat" := by decide

/-- C1 amended: for every Document whose metadata contains the reserved key
`_pageContentLC` (bound to `v`), the caller's metadata value wins: the decoded
text is `v`, the document's own text is lost, and the decoded metadata is the
caller metadata with the colliding entry removed. -/
theorem c1_caller_value_wins (pc v : JValue) (m₁ m₂ : JObj)
    (hnd : (objKeys (m₁ ++ m₂)).Nodup)
    (hR : pageContentKey ∉ objKeys (m₁ ++ m₂)) :
    decodeHitDocument (some (encodeMetadata
        ⟨pc, m₁ ++ (pageContentKey, v) :: m₂⟩)) = ⟨v, m₁ ++ m₂⟩ := by
  rw [objKeys_append] at hnd hR
  have hR₁ : pageContentKey ∉ objKeys m₁ := fun h => hR (List.mem_append.mpr (Or.inl h))
  have hR₂ : pageContentKey ∉ objKeys m₂ := fun h => hR (List.mem_append.mpr (Or.inr h))
  have hnd₁ : (objKeys m₁).Nodup := ((List.nodup_append.mp hnd).1)
  have hnd₂ : (objKeys m₂).Nodup := ((List.nodup_append.mp hnd).2).1
  have hdisj := ((List.nodup_append.mp hnd).2).2
  have henc : encodeMetadata ⟨pc, m₁ ++ (pageContentKey, v) :: m₂⟩ =
      (pageContentKey, v) :: (m₁ ++ m₂) := by
    unfold encodeMetadata
    rw [objSpread_append]
    rw [objSpread_of_fresh [(pageContentKey, pc)] m₁ ?fresh₁ hnd₁]
    case fresh₁ =>
      intro k hk
      simp only [objKeys, List.map_cons, List.map_nil, List.mem_singleton]
      intro e
      exact hR₁ (e ▸ hk)
    rw [List.singleton_append, objSpread_cons]
    simp only
    rw [objSet_cons_self _ _ _ _ hR₁]
    rw [objSpread_of_fresh ((pageContentKey, v) :: m₁) m₂ ?fresh₂ hnd₂]
    case fresh₂ =>
      intro k hk
      simp only [objKeys, List.map_cons, List.mem_cons]
      rintro (e | hmem)
      · exact hR₂ (e ▸ hk)
      · exact hdisj hmem hk
    simp
  rw [henc]
  unfold decodeHitDocument
  simp only [Option.getD_some]
  have h1 : (objLookup ((pageContentKey, v) :: (m₁ ++ m₂)) pageContentKey).getD
      JValue.undef = v := by simp [objLookup]
  have h2 : objRemove ((pageContentKey, v) :: (m₁ ++ m₂)) pageContentKey = m₁ ++ m₂ := by
    rw [objRemove_cons_self, objRemove_of_not_mem]
    rw [objKeys_append]
    intro h
    rcases List.mem_append.mp h with h | h
    · exact hR₁ h
    · exact hR₂ h
  rw [h1, h2]

/-- Witness for the amended C1 at a concrete colliding document. -/
theorem c1_caller_value_wins_witness :
    decodeHitDocument (some (encodeMetadata
        ⟨JValue.str "cat", [("a", JValue.num 1), (pageContentKey, JValue.str "dog"),
          ("b", JValue.num 2)]⟩)) =
      ⟨JValue.str "dog", [("a", JValue.num 1), ("b", JValue.num 2)]⟩ :=
  c1_caller_value_wins (JValue.str "cat") (JValue.str "dog")
    [("a", JValue.num 1)] [("b", JValue.num 2)] (by decide) (by decide)

/-! The Upstash similarity-query adapter
(`_runUpstashQuery` and `similaritySearchVectorWithScore`, part_000 lines 145-191). -/

/-- One scored hit as returned by `index.query`: a metadata record (possibly
absent) and a score.  Scores are opaque pass-through numbers; rationals stand
in for JS floats since the adapter never computes with them. -/
structure QueryHit where
  metadata : Option JObj
  score : Rat
  deriving DecidableEq, Repr

/-- The request object built in `_runUpstashQuery` (part_000 lines 151-157):
`{ vector: query, topK: k, includeMetadata: true, filter, ...options }`.
`options`, when present, can only carry `includeVectors`, so the spread cannot
touch `includeMetadata`. -/
structure UpstashQueryRequest where
  vector : List Rat
  topK : Nat
  includeMetadata : Bool
  filter : Option String
  includeVectors : Option Bool
  deriving DecidableEq, Repr

/-- `_runUpstashQuery` as a request builder; `options` models the optional
`{ includeVectors }` argument. -/
def runUpstashQuery (query : List Rat) (k : Nat) (filter : Option String)
    (options : Option Bool) : UpstashQueryRequest :=
  { vector := query
    topK := k
    includeMetadata := true
    filter := filter
    includeVectors := options }

/-- `similaritySearchVectorWithScore` (part_000 lines 171-191): issue the query
(without options, hence `none`) and map every hit to
`(decodeHitDocument hit.metadata, hit.score)` in the sink's order.  The sink's
response is the `results` argument; the returned pair carries the issued
request and the decoded scored results. -/
def similaritySearchVectorWithScore (query : List Rat) (k : Nat)
    (filter : Option String) (results : List QueryHit) :
    UpstashQueryRequest × List (Document × Rat) :=
  (runUpstashQuery query k filter none,
   results.map (fun res => (decodeHitDocument res.metadata, res.score)))

/-- C4: for every query vector, positive k and sink response of m ≤ k hits,
similaritySearchVectorWithScore returns exactly m (document, score) pairs, in
the sink's order, each score passed through unchanged and each document the
decoding of the hit's metadata; the underlying request always sets
includeMetadata = true.  No re-sorting, deduplication or filtering happens:
entry i of the output is exactly the decoding of hit i. -/
theorem c4_search_passthrough (query : List Rat) (k : Nat) (filter : Option String)
    (results : List QueryHit) (hk : 0 < k) (hm : results.length ≤ k) :
    (similaritySearchVectorWithScore query k filter results).1.includeMetadata = true ∧
    (similaritySearchVectorWithScore query k filter results).2.length = results.length ∧
    ∀ i (hi : i < results.length),
      (similaritySearchVectorWithScore query k filter results).2.get? i =
        some (decodeHitDocument (results.get ⟨i, hi⟩).metadata,
          (results.get ⟨i, hi⟩).score) := by
  refine ⟨rfl, by simp [similaritySearchVectorWithScore], ?_⟩
  intro i hi
  show (results.map (fun res => (decodeHitDocument res.metadata, res.score))).get? i = _
  rw [List.get?_map, List.get?_eq_get hi]
  rfl

/-- Witness for C4 at a concrete query and two-hit response. -/
theorem c4_search_passthrough_witness :
    (similaritySearchVectorWithScore [1, 0] 3 none
        [⟨some [(pageContentKey, JValue.str "cat")], (9 : Rat)/10⟩,
         ⟨some [(pageContentKey, JValue.str "dog")], (1 : Rat)/10⟩]).1.includeMetadata
      = true ∧
    (similaritySearchVectorWithScore [1, 0] 3 none
        [⟨some [(pageContentKey, JValue.str "cat")], (9 : Rat)/10⟩,
         ⟨some [(pageContentKey, JValue.str "dog")], (1 : Rat)/10⟩]).2.length = 2 := by
  have h := c4_search_passthrough [1, 0] 3 none
    [⟨some [(pageContentKey, JValue.str "cat")], (9 : Rat)/10⟩,
     ⟨some [(pageContentKey, JValue.str "dog")], (1 : Rat)/10⟩]
    (by decide) (by decide)
  exact ⟨h.1, h.2.1⟩

/-- C8: a hit whose metadata is absent does not make
similaritySearchVectorWithScore fail: that hit decodes to a document with
undefined text and empty metadata, paired with the hit's score. -/
theorem c8_missing_metadata_total (query : List Rat) (k : Nat) (filter : Option String)
    (results : List QueryHit) (i : Nat) (hi : i < results.length)
    (hmeta : (results.get ⟨i, hi⟩).metadata = none) :
    (similaritySearchVectorWithScore query k filter results).2.get? i =
      some (⟨JValue.undef, []⟩, (results.get ⟨i, hi⟩).score) := by
  have hdec : decodeHitDocument (results.get ⟨i, hi⟩).metadata = ⟨JValue.undef, []⟩ := by
    rw [hmeta]
    rfl
  show (results.map (fun res => (decodeHitDocument res.metadata, res.score))).get? i = _
  rw [List.get?_map, List.get?_eq_get hi]
  rw [Option.map_some']
  rw [hdec]

/-- Witness for C8 at a concrete response whose only hit lacks metadata. -/
theorem c8_missing_metadata_total_witness :
    (similaritySearchVectorWithScore [1] 1 none [⟨none, (1 : Rat)/2⟩]).2.get? 0 =
      some (⟨JValue.undef, []⟩, (1 : Rat)/2) :=
  c8_missing_metadata_total [1] 1 none [⟨none, (1 : Rat)/2⟩] 0 (by decide) rfl

/-! The batched upsert pipeline (`UpstashVectorStore.addVectors`,
part_000 lines 97-129) and `delete` (lines 137-143). -/

/-- A synchronous JS exception, e.g. the TypeError raised by reading
`documents[index].pageContent` when `documents[index]` is `undefined`. -/
inductive JsError where
  | typeError (msg : String)
  deriving DecidableEq, Repr

/-- One element of the `upstashVectors` array built at lines 113-117.
`id` is `documentIds[index]`, which is `undefined` (here `none`) when a
caller-supplied id list is shorter than the vector list. -/
structure UpsertItem where
  id : Option String
  vector : List Rat
  metadata : JObj
  deriving DecidableEq, Repr

/-- `const documentIds = options?.ids ?? Array.from({length: vectors.length},
() => uuid.v4())` (line 102-103); `gen` supplies the stream of freshly
generated UUIDs, in generation order. -/
def documentIdsOf (vectorsLen : Nat) (ids : Option (List String))
    (gen : Nat → String) : List String :=
  match ids with
  | some l => l
  | none => (List.range vectorsLen).map gen

/-- The `vectors.map((vector, index) => ...)` at lines 105-118, walking the
vector list with its index: reading `documents[index].pageContent` throws a
TypeError when that slot is `undefined`; reading `documentIds[index]` out of
range just yields `undefined`. -/
def buildUpstashVectors (documents : List Document) (documentIds : List String) :
    Nat → List (List Rat) → Except JsError (List UpsertItem)
  | _, [] => Except.ok []
  | i, v :: rest =>
    match documents.get? i with
    | none => Except.error (JsError.typeError "Cannot read properties of undefined")
    | some d =>
      match buildUpstashVectors documents documentIds (i + 1) rest with
      | Except.error e => Except.error e
      | Except.ok tail =>
        Except.ok
          (UpsertItem.mk (documentIds.get? i) v (encodeMetadata d) :: tail)

/-- The chunk-size constant `CONCURRENT_UPSERT_LIMIT` (line 39). -/
def CONCURRENT_UPSERT_LIMIT : Nat := 1000

/-- `chunkArray` from the toolkit's utils (imported at line 6, applied at
line 120): element `i` of the input lands in chunk `⌊i / size⌋`, so the
chunks are the consecutive slices of at most `size` elements. -/
def chunkArray (l : List α) (size : Nat) : List (List α) :=
  (List.range ((l.length + size - 1) / size)).map
    (fun i => (l.drop (i * size)).take size)

/-- A call issued to the Upstash index (the vector sink). -/
inductive SinkOp where
  | upsertOp (items : List UpsertItem)
  | deleteOp (ids : List String)
  | deleteOneOp (id : String)
  | resetOp
  deriving DecidableEq, Repr

/-- The overall outcome of one `addVectors` invocation.  `syncError` is a
synchronous JS exception thrown while building the payload (before any sink
call); `chunkFailure` is the rejection of `Promise.all(batchRequests)` when
some chunk submission failed; `ok` carries the returned id list. -/
inductive AddResult (ε : Type) where
  | syncError (e : JsError)
  | chunkFailure (e : ε)
  | ok (ids : List String)
  deriving DecidableEq, Repr

/-- `Promise.all` over unit-valued promises: rejects with the error of a
failed element if there is one, otherwise resolves. -/
def promiseAllUnit : List (Except ε Unit) → Except ε Unit
  | [] => Except.ok ()
  | r :: rest =>
    match r with
    | Except.error e => Except.error e
    | Except.ok _ => promiseAllUnit rest

/-- `UpstashVectorStore.addVectors` (lines 97-129): compute `documentIds`,
build the upsert payload, split it with `chunkArray`, submit every chunk once
through the caller, await all submissions and return `documentIds`.
`outcome j` is the sink's verdict on the submission of chunk `j`; the first
component of the result lists the sink calls issued, in dispatch order.
`chunkSize` is `CONCURRENT_UPSERT_LIMIT` in the source but is kept as a
parameter to state chunking-independence. -/
def addVectors (vectors : List (List Rat)) (documents : List Document)
    (ids : Option (List String)) (gen : Nat → String) (chunkSize : Nat)
    (outcome : Nat → Except ε Unit) : List SinkOp × AddResult ε :=
  let documentIds := documentIdsOf vectors.length ids gen
  match buildUpstashVectors documents documentIds 0 vectors with
  | Except.error e => ([], AddResult.syncError e)
  | Except.ok upstashVectors =>
    let vectorChunks := chunkArray upstashVectors chunkSize
    let batchResults := (List.range vectorChunks.length).map outcome
    (vectorChunks.map SinkOp.upsertOp,
     match promiseAllUnit batchResults with
     | Except.error e => AddResult.chunkFailure e
     | Except.ok _ => AddResult.ok documentIds)

/-- The `ids: string | string[]` argument of `index.delete`. -/
inductive StrOrArr where
  | one (s : String)
  | many (l : List String)
  deriving DecidableEq, Repr

/-- `UpstashDeleteParams` (part_000 lines 32-37) as JS runtime values: at
runtime either field may be absent, so both are optional here even though the
TypeScript union forbids supplying both. -/
structure UpstashDeleteParams where
  ids : Option StrOrArr
  deleteAll : Option Bool
  deriving DecidableEq, Repr

/-- The error species the spec requires for malformed calls.  The embedded
delete code never constructs one. -/
inductive ValidationError where
  | validationError (msg : String)
  deriving DecidableEq, Repr

/-- JS truthiness of `params.deleteAll`. -/
def truthyDeleteAll (p : UpstashDeleteParams) : Bool := p.deleteAll = some true

/-- JS truthiness of `params.ids`: an absent value and the empty string are
falsy; every array (even empty) is truthy. -/
def truthyIds : Option StrOrArr → Bool
  | none => false
  | some (StrOrArr.one s) => s ≠ ""
  | some (StrOrArr.many _) => true

/-- `UpstashVectorStore.delete` (lines 137-143): `if (params.deleteAll)`
reset; `else if (params.ids)` delete those ids; else fall through.  The body
contains no validation and no throw, so the model's error channel is never
used. -/
def deleteRun (params : UpstashDeleteParams) : Except ValidationError (List SinkOp) :=
  if truthyDeleteAll params then Except.ok [SinkOp.resetOp]
  else if truthyIds params.ids then
    Except.ok [match params.ids with
      | some (StrOrArr.one s) => SinkOp.deleteOneOp s
      | some (StrOrArr.many l) => SinkOp.deleteOp l
      | none => SinkOp.deleteOp []]
  else Except.ok []

/-! Helper lemmas about the upsert pipeline. -/

theorem buildUpstashVectors_ok (documents : List Document) (documentIds : List String) :
    ∀ (vs : List (List Rat)) (i : Nat), i + vs.length ≤ documents.length →
    ∃ items, buildUpstashVectors documents documentIds i vs = Except.ok items ∧
      items.length = vs.length := by
  intro vs
  induction vs with
  | nil => exact fun i _ => ⟨[], rfl, rfl⟩
  | cons v rest ih =>
    intro i hle
    have hi : i < documents.length := by
      simp only [List.length_cons] at hle
      omega
    have hget : documents.get? i = some (documents.get ⟨i, hi⟩) := List.get?_eq_get hi
    obtain ⟨tail, htail, hlen⟩ := ih (i + 1) (by simp only [List.length_cons] at hle; omega)
    refine ⟨UpsertItem.mk (documentIds.get? i) v
      (encodeMetadata (documents.get ⟨i, hi⟩)) :: tail, ?_, ?_⟩
    · simp only [buildUpstashVectors, hget, htail]
    · simp [hlen]

theorem buildUpstashVectors_error (documents : List Document) (documentIds : List String) :
    ∀ (vs : List (List Rat)) (i : Nat), documents.length < i + vs.length →
    0 < vs.length →
    ∃ e, buildUpstashVectors documents documentIds i vs = Except.error e := by
  intro vs
  induction vs with
  | nil => exact fun i _ h => absurd h (by simp)
  | cons v rest ih =>
    intro i hlt _
    cases hget : documents.get? i with
    | none =>
      exact ⟨JsError.typeError "Cannot read properties of undefined",
        by simp only [buildUpstashVectors, hget]⟩
    | some d =>
      obtain ⟨hi, -⟩ := List.get?_eq_some.mp hget
      have hrest : 0 < rest.length := by
        simp only [List.length_cons] at hlt
        omega
      obtain ⟨e, he⟩ := ih (i + 1) (by simp only [List.length_cons] at hlt ⊢; omega) hrest
      exact ⟨e, by simp only [buildUpstashVectors, hget, he]⟩

theorem promiseAllUnit_ok (rs : List (Except ε Unit))
    (h : ∀ r ∈ rs, r = Except.ok ()) : promiseAllUnit rs = Except.ok () := by
  induction rs with
  | nil => rfl
  | cons r rest ih =>
    have hr := h r (by simp)
    simp only [promiseAllUnit, hr]
    exact ih (fun x hx => h x (by simp [hx]))

theorem promiseAllUnit_error (rs : List (Except ε Unit)) (e : ε) (r : Except ε Unit)
    (hr : r ∈ rs) (he : r = Except.error e) :
    ∃ e', promiseAllUnit rs = Except.error e' := by
  induction rs with
  | nil => cases hr
  | cons x rest ih =>
    rcases List.mem_cons.mp hr with h | h
    · exact ⟨e, by simp only [promiseAllUnit, h ▸ he]⟩
    · cases x with
      | error e'' => exact ⟨e'', rfl⟩
      | ok u => exact ih h

theorem chunkArray_nil (size : Nat) : chunkArray ([] : List α) size = [] := by
  unfold chunkArray
  have h : (List.length ([] : List α) + size - 1) / size = 0 := by
    simp only [List.length_nil, Nat.zero_add]
    cases size with
    | zero => rfl
    | succ n => exact Nat.div_eq_of_lt (by omega)
  rw [h]
  rfl

theorem chunkArray_length (l : List α) (size : Nat) :
    (chunkArray l size).length = (l.length + size - 1) / size := by
  simp [chunkArray]

/-- C3: for n vectors with n documents (and optional n caller ids), addVectors
returns exactly n ids in input order — the caller-supplied ids unchanged, or
the generated ids in generation order — for every chunk size (the right-hand
sides below never mention chunkSize, so chunking is invisible); with n = 0 it
returns the empty list and issues no sink call. -/
theorem c3_ids_in_order (vectors : List (List Rat)) (documents : List Document)
    (ids : Option (List String)) (gen : Nat → String) (chunkSize : Nat)
    (outcome : Nat → Except ε Unit)
    (hlen : documents.length = vectors.length)
    (hids : ∀ l, ids = some l → l.length = vectors.length)
    (hok : ∀ j, outcome j = Except.ok ()) :
    (addVectors vectors documents ids gen chunkSize outcome).2 =
      AddResult.ok (documentIdsOf vectors.length ids gen) ∧
    (documentIdsOf vectors.length ids gen).length = vectors.length ∧
    (∀ l, ids = some l → documentIdsOf vectors.length ids gen = l) ∧
    (ids = none → documentIdsOf vectors.length ids gen =
      (List.range vectors.length).map gen) ∧
    (vectors = [] →
      addVectors vectors documents ids gen chunkSize outcome = ([], AddResult.ok [])) := by
  obtain ⟨items, hbuild, hilen⟩ := buildUpstashVectors_ok documents
    (documentIdsOf vectors.length ids gen) vectors 0 (by omega)
  have hall : promiseAllUnit
      ((List.range (chunkArray items chunkSize).length).map outcome) = Except.ok () := by
    apply promiseAllUnit_ok
    intro r hrmem
    obtain ⟨j, -, rfl⟩ := List.mem_map.mp hrmem
    exact hok j
  have hidlen : (documentIdsOf vectors.length ids gen).length = vectors.length := by
    cases hc : ids with
    | some l => simp [documentIdsOf, hids l hc]
    | none => simp [documentIdsOf]
  refine ⟨?_, hidlen, ?_, ?_, ?_⟩
  · simp only [addVectors, hbuild, hall]
  · intro l hl
    simp [documentIdsOf, hl]
  · intro hl
    simp [documentIdsOf, hl]
  · intro hv
    subst hv
    have hnil : documentIdsOf 0 ids gen = [] := by
      cases hc : ids with
      | some l =>
        have := hids l hc
        simp only [List.length_nil] at this
        simp [documentIdsOf, List.length_eq_zero.mp this]
      | none => simp [documentIdsOf]
    simp only [addVectors, hnil, buildUpstashVectors, chunkArray_nil, List.map_nil,
      List.length_nil, List.range_zero, promiseAllUnit]

/-- Witness for C3: two vectors, two documents, no caller ids; the generated
ids come back in generation order and chunking with size 1 is invisible. -/
theorem c3_ids_in_order_witness :
    (addVectors [[(1 : Rat)], [(2 : Rat)]]
        [⟨JValue.str "a", []⟩, ⟨JValue.str "b", []⟩] none (fun _ => "gid") 1
        (fun _ => (Except.ok () : Except String Unit))).2 =
      AddResult.ok ["gid", "gid"] := by
  have h := c3_ids_in_order [[(1 : Rat)], [(2 : Rat)]]
    [⟨JValue.str "a", []⟩, ⟨JValue.str "b", []⟩] none (fun _ => "gid") 1
    (fun _ => (Except.ok () : Except String Unit)) rfl
    (fun l hl => by cases hl) (fun _ => rfl)
  exact h.1

/-- C6: when the input is well-formed and at least one chunk submission fails,
the whole addVectors invocation fails: the outcome is a chunkFailure (never a
partial id list), and the issued sink calls are exactly one upsert per chunk
of the payload — nothing is retried and no rollback (delete/reset) call is
ever issued. -/
theorem c6_chunk_failure_total (vectors : List (List Rat)) (documents : List Document)
    (ids : Option (List String)) (gen : Nat → String) (chunkSize : Nat)
    (outcome : Nat → Except ε Unit)
    (hlen : documents.length = vectors.length)
    (j : Nat) (e : ε)
    (hj : j < (vectors.length + chunkSize - 1) / chunkSize)
    (hfail : outcome j = Except.error e) :
    (∃ e', (addVectors vectors documents ids gen chunkSize outcome).2 =
        AddResult.chunkFailure e') ∧
    (∀ l, (addVectors vectors documents ids gen chunkSize outcome).2 ≠
        AddResult.ok l) ∧
    (addVectors vectors documents ids gen chunkSize outcome).1.length =
      (vectors.length + chunkSize - 1) / chunkSize ∧
    (∀ op ∈ (addVectors vectors documents ids gen chunkSize outcome).1,
      ∃ c, op = SinkOp.upsertOp c) := by
  obtain ⟨items, hbuild, hilen⟩ := buildUpstashVectors_ok documents
    (documentIdsOf vectors.length ids gen) vectors 0 (by omega)
  have hcount : (chunkArray items chunkSize).length =
      (vectors.length + chunkSize - 1) / chunkSize := by
    rw [chunkArray_length, hilen]
  have hmem : outcome j ∈ (List.range (chunkArray items chunkSize).length).map outcome := by
    apply List.mem_map.mpr
    exact ⟨j, List.mem_range.mpr (by rw [hcount]; exact hj), rfl⟩
  obtain ⟨e', herr⟩ := promiseAllUnit_error _ e (outcome j) hmem hfail
  refine ⟨⟨e', ?_⟩, ?_, ?_, ?_⟩
  · simp only [addVectors, hbuild, herr]
  · intro l
    simp only [addVectors, hbuild, herr]
    intro hcontr
    cases hcontr
  · simp only [addVectors, hbuild, List.length_map, hcount]
  · intro op hop
    simp only [addVectors, hbuild] at hop
    obtain ⟨c, -, rfl⟩ := List.mem_map.mp hop
    exact ⟨c, rfl⟩

/-- Witness for C6: two single-vector chunks (chunk size 1) where the second
submission fails; the whole call reports a chunk failure. -/
theorem c6_chunk_failure_total_witness :
    ∃ e', (addVectors [[(1 : Rat)], [(2 : Rat)]]
        [⟨JValue.str "a", []⟩, ⟨JValue.str "b", []⟩] none (fun _ => "gid") 1
        (fun j => if j = 1 then Except.error "boom" else Except.ok ())).2 =
      AddResult.chunkFailure e' := by
  have h := c6_chunk_failure_total [[(1 : Rat)], [(2 : Rat)]]
    [⟨JValue.str "a", []⟩, ⟨JValue.str "b", []⟩] none (fun _ => "gid") 1
    (fun j => if j = 1 then Except.error "boom" else Except.ok ()) rfl 1 "boom"
    (by decide) rfl
  exact h.1

/-- C7 counterexample: one vector paired with two documents is a length
mismatch, yet addVectors performs the upsert and returns an id list — no
ValidationError (indeed no error at all) is surfaced, and a sink call is
issued, contradicting the claim. -/
theorem c7_validation_counterexample :
    addVectors [[(1 : Rat)]] [⟨JValue.str "a", []⟩, ⟨JValue.str "b", []⟩] none
        (fun _ => "gid") 1000 (fun _ => (Except.ok () : Except String Unit)) =
      ([SinkOp.upsertOp [⟨some "gid", [(1 : Rat)], [(pageContentKey, JValue.str "a")]⟩]],
       AddResult.ok ["gid"]) := by decide

/-- Each payload item draws its id by position: item j built from start index
i0 carries `documentIds[i0 + j]`, which is `undefined` past the end of the
list. -/
theorem buildUpstashVectors_id (documents : List Document) (documentIds : List String) :
    ∀ (vs : List (List Rat)) (i0 : Nat) (items : List UpsertItem),
    buildUpstashVectors documents documentIds i0 vs = Except.ok items →
    ∀ j (hj : j < items.length),
      (items.get ⟨j, hj⟩).id = documentIds.get? (i0 + j) := by
  intro vs
  induction vs with
  | nil =>
    intro i0 items hbuild j hj
    simp only [buildUpstashVectors] at hbuild
    injection hbuild with h
    subst h
    cases hj
  | cons v rest ih =>
    intro i0 items hbuild j hj
    cases hget : documents.get? i0 with
    | none =>
      simp only [buildUpstashVectors, hget] at hbuild
      cases hbuild
    | some d =>
      cases hrest : buildUpstashVectors documents documentIds (i0 + 1) rest with
      | error e =>
        simp only [buildUpstashVectors, hget, hrest] at hbuild
        cases hbuild
      | ok tail =>
        simp only [buildUpstashVectors, hget, hrest] at hbuild
        injection hbuild with h
        subst h
        cases j with
        | zero => simp [List.get]
        | succ j' =>
          have hj' : j' < tail.length := by
            simp only [List.length_cons] at hj
            omega
          have hih := ih (i0 + 1) tail hrest j' hj'
          show (tail.get ⟨j', hj'⟩).id = documentIds.get? (i0 + (j' + 1))
          rw [hih]
          congr 1
          omega

/-- C7 amended: addVectors performs no length validation and never raises a
ValidationError.  When the document list is shorter than the vector list, a
synchronous TypeError surfaces while the payload is built, before any sink
call.  When the vector list is no longer than the document list — even when
unequal, and for a caller-supplied id list of any length — nothing is raised:
no synchronous error occurs, one upsert per chunk of the payload is issued,
the payload draws `documentIds[index]` positionally (undefined past the end
of a too-short caller list), and when every chunk submission succeeds the
returned ids are the caller-supplied list unchanged (surplus entries
included) or the generated ids. -/
theorem c7_no_length_validation (vectors : List (List Rat))
    (documents : List Document) (ids : Option (List String)) (gen : Nat → String)
    (chunkSize : Nat) (outcome : Nat → Except ε Unit) :
    (documents.length < vectors.length →
      (addVectors vectors documents ids gen chunkSize outcome).1 = [] ∧
      ∃ e, (addVectors vectors documents ids gen chunkSize outcome).2 =
        AddResult.syncError e) ∧
    (vectors.length ≤ documents.length →
      (∀ e, (addVectors vectors documents ids gen chunkSize outcome).2 ≠
        AddResult.syncError e) ∧
      (addVectors vectors documents ids gen chunkSize outcome).1.length =
        (vectors.length + chunkSize - 1) / chunkSize ∧
      ((∀ j, outcome j = Except.ok ()) →
        (addVectors vectors documents ids gen chunkSize outcome).2 =
          AddResult.ok (documentIdsOf vectors.length ids gen)) ∧
      (∀ l, ids = some l → (∀ j, outcome j = Except.ok ()) →
        (addVectors vectors documents ids gen chunkSize outcome).2 =
          AddResult.ok l) ∧
      (∀ items, buildUpstashVectors documents
          (documentIdsOf vectors.length ids gen) 0 vectors = Except.ok items →
        (addVectors vectors documents ids gen chunkSize outcome).1 =
          (chunkArray items chunkSize).map SinkOp.upsertOp ∧
        ∀ j (hj : j < items.length), (items.get ⟨j, hj⟩).id =
          (documentIdsOf vectors.length ids gen).get? j)) := by
  constructor
  · intro hshort
    obtain ⟨e, he⟩ := buildUpstashVectors_error documents
      (documentIdsOf vectors.length ids gen) vectors 0 (by omega) (by omega)
    exact ⟨by simp only [addVectors, he], e, by simp only [addVectors, he]⟩
  · intro hle
    obtain ⟨items, hbuild, hilen⟩ := buildUpstashVectors_ok documents
      (documentIdsOf vectors.length ids gen) vectors 0 (by omega)
    refine ⟨?_, ?_, ?_, ?_, ?_⟩
    · intro e
      simp only [addVectors, hbuild]
      cases hp : promiseAllUnit
          ((List.range (chunkArray items chunkSize).length).map outcome) with
      | error e' => simp
      | ok u => simp
    · simp only [addVectors, hbuild, List.length_map, chunkArray_length, hilen]
    · intro hok
      have hall : promiseAllUnit
          ((List.range (chunkArray items chunkSize).length).map outcome) =
            Except.ok () := by
        apply promiseAllUnit_ok
        intro r hrmem
        obtain ⟨j, -, rfl⟩ := List.mem_map.mp hrmem
        exact hok j
      simp only [addVectors, hbuild, hall]
    · intro l hl hok
      have hall : promiseAllUnit
          ((List.range (chunkArray items chunkSize).length).map outcome) =
            Except.ok () := by
        apply promiseAllUnit_ok
        intro r hrmem
        obtain ⟨j, -, rfl⟩ := List.mem_map.mp hrmem
        exact hok j
      have hids : documentIdsOf vectors.length ids gen = l := by
        simp [documentIdsOf, hl]
      have hb2 : buildUpstashVectors documents l 0 vectors = Except.ok items := by
        rw [← hids]
        exact hbuild
      simp only [addVectors, documentIdsOf, hl, hb2, hall]
    · intro items' hbuild'
      rw [hbuild] at hbuild'
      injection hbuild' with hsame
      subst hsame
      refine ⟨by simp only [addVectors, hbuild], ?_⟩
      intro j hj
      have := buildUpstashVectors_id documents
        (documentIdsOf vectors.length ids gen) vectors 0 items hbuild j hj
      simpa using this

/-- Witness for the amended C7, exercising both branches at mismatched
inputs: two vectors with one document throw synchronously before any sink
call, and one vector with two documents plus a surplus two-element id list
proceeds without error and returns the surplus list unchanged. -/
theorem c7_no_length_validation_witness :
    ((addVectors [[(1 : Rat)], [(2 : Rat)]] [⟨JValue.str "a", []⟩] none
        (fun _ => "gid") 1000 (fun _ => (Except.ok () : Except String Unit))).1 = [] ∧
      ∃ e, (addVectors [[(1 : Rat)], [(2 : Rat)]] [⟨JValue.str "a", []⟩] none
        (fun _ => "gid") 1000 (fun _ => (Except.ok () : Except String Unit))).2 =
          AddResult.syncError e) ∧
    (addVectors [[(1 : Rat)]] [⟨JValue.str "a", []⟩, ⟨JValue.str "b", []⟩]
        (some ["u", "v"]) (fun _ => "gid") 1000
        (fun _ => (Except.ok () : Except String Unit))).2 = AddResult.ok ["u", "v"] :=
  ⟨(c7_no_length_validation [[(1 : Rat)], [(2 : Rat)]] [⟨JValue.str "a", []⟩] none
      (fun _ => "gid") 1000 (fun _ => (Except.ok () : Except String Unit))).1
      (by decide),
   ((c7_no_length_validation [[(1 : Rat)]]
      [⟨JValue.str "a", []⟩, ⟨JValue.str "b", []⟩] (some ["u", "v"])
      (fun _ => "gid") 1000 (fun _ => (Except.ok () : Except String Unit))).2
      (by decide)).2.2.2.1 ["u", "v"] rfl (fun _ => rfl)⟩

/-- C5 counterexample: a delete request with neither ids nor deleteAll
(deleteAll absent) returns successfully without any sink call and without any
ValidationError, and a request with both set performs the reset — the code
guesses the deleteAll mode instead of rejecting. -/
theorem c5_no_validation_counterexample :
    deleteRun ⟨none, none⟩ = Except.ok [] ∧
    deleteRun ⟨some (StrOrArr.many ["a"]), some true⟩ =
      Except.ok [SinkOp.resetOp] := ⟨rfl, rfl⟩

/-- C5 amended: delete never raises a ValidationError.  When deleteAll is
truthy the index is reset (even if ids is also supplied — deleteAll wins);
otherwise when ids is truthy exactly those ids are deleted; otherwise (neither
truthy) no sink call is made and the call returns successfully. -/
theorem c5_delete_never_validates (params : UpstashDeleteParams) :
    (∃ ops, deleteRun params = Except.ok ops) ∧
    (truthyDeleteAll params = true → deleteRun params = Except.ok [SinkOp.resetOp]) ∧
    (∀ s, truthyDeleteAll params = false → params.ids = some (StrOrArr.one s) →
      s ≠ "" → deleteRun params = Except.ok [SinkOp.deleteOneOp s]) ∧
    (∀ l, truthyDeleteAll params = false → params.ids = some (StrOrArr.many l) →
      deleteRun params = Except.ok [SinkOp.deleteOp l]) ∧
    (truthyDeleteAll params = false → truthyIds params.ids = false →
      deleteRun params = Except.ok []) := by
  refine ⟨?_, ?_, ?_, ?_, ?_⟩
  · unfold deleteRun
    split
    · exact ⟨_, rfl⟩
    · split
      · exact ⟨_, rfl⟩
      · exact ⟨_, rfl⟩
  · intro h
    simp [deleteRun, h]
  · intro s h hid hs
    have ht : truthyIds (some (StrOrArr.one s)) = true := decide_eq_true hs
    simp [deleteRun, h, hid, ht]
  · intro l h hid
    have ht : truthyIds (some (StrOrArr.many l)) = true := rfl
    simp [deleteRun, h, hid, ht]
  · intro h hid
    simp [deleteRun, h, hid]

/-- Witness for the amended C5: a request deleting two explicit ids issues
exactly that delete call. -/
theorem c5_delete_never_validates_witness :
    deleteRun ⟨some (StrOrArr.many ["a", "b"]), none⟩ =
      Except.ok [SinkOp.deleteOp ["a", "b"]] :=
  (c5_delete_never_validates ⟨some (StrOrArr.many ["a", "b"]), none⟩).2.2.2.1
    ["a", "b"] rfl rfl

/-! The Redis byte-store key prefixing
(src/storage/ioredis.ts, `_getPrefixedKey` lines 59-65 and `_getDeprefixedKey`
lines 67-73).  Keys and the namespace are character lists so that the
`slice(this.namespace.length + delimiter.length)` arithmetic is explicit. -/

/-- JS truthiness of an optional string: absent and empty are both falsy. -/
def jsTruthyString : Option (List Char) → Bool
  | none => false
  | some s => s ≠ []

/-- The `RedisByteStore` state relevant to key prefixing.  The source field is
called `namespace`, which is a Lean keyword, hence `nspace` here. -/
structure RedisByteStore where
  nspace : Option (List Char)
  deriving DecidableEq, Repr

/-- `_getPrefixedKey`: under `if (this.namespace)` return
namespace ++ "/" ++ key, else the key unchanged. -/
def getPrefixedKey (store : RedisByteStore) (key : List Char) : List Char :=
  if jsTruthyString store.nspace then store.nspace.getD [] ++ ['/'] ++ key
  else key

/-- `_getDeprefixedKey`: under `if (this.namespace)` drop
`namespace.length + delimiter.length` characters, else the key unchanged. -/
def getDeprefixedKey (store : RedisByteStore) (key : List Char) : List Char :=
  if jsTruthyString store.nspace then
    key.drop ((store.nspace.getD []).length + 1)
  else key

/-- C9: for every RedisByteStore configuration (with or without a namespace)
and every key, deprefixing the prefixed key recovers the key exactly. -/
theorem c9_prefix_roundtrip (store : RedisByteStore) (key : List Char) :
    getDeprefixedKey store (getPrefixedKey store key) = key := by
  unfold getPrefixedKey getDeprefixedKey
  cases h : jsTruthyString store.nspace with
  | false => simp [h]
  | true =>
    simp only [h, if_true]
    have hassoc : store.nspace.getD [] ++ ['/'] ++ key =
        (store.nspace.getD [] ++ ['/']) ++ key := by
      simp [List.append_assoc]
    rw [hassoc]
    have hlen : (store.nspace.getD [] ++ ['/']).length =
        (store.nspace.getD []).length + 1 := by simp
    rw [← hlen, List.drop_left]

/-! The Postgres chat-message-history constructor
(src/stores/message/postgres.ts lines 90-105). -/

/-- An opaque `pg.PoolConfig`. -/
structure PgPoolConfig where
  configId : Nat
  deriving DecidableEq, Repr

/-- The pool held by a constructed history: `pool ?? new pg.Pool(poolConfig)`
keeps a provided pool handle, otherwise creates one from the config. -/
inductive PgPool where
  | provided (handle : Nat)
  | created (config : PgPoolConfig)
  deriving DecidableEq, Repr

/-- `PostgresChatMessageHistoryInput` (postgres.ts lines 14-40); the table
name is a character list so that `pg.escapeIdentifier` is explicit; a provided
pool is an opaque handle. -/
structure PostgresChatMessageHistoryInput where
  tableName : Option (List Char)
  sessionId : String
  poolConfig : Option PgPoolConfig
  pool : Option Nat
  escapeTableName : Option Bool
  deriving DecidableEq, Repr

/-- `pg.escapeIdentifier`: wrap in double quotes, doubling every embedded
double quote; the source documents the behavior at postgres.ts line 37
(lAnGcHaIn becomes \x22lAnGcHaIn\x22). -/
def escapeIdentifier (s : List Char) : List Char :=
  '"' :: (s.map (fun c => if c = '"' then ['"', '"'] else [c])).join ++ ['"']

/-- The default table name (postgres.ts line 74). -/
def DEFAULT_TABLE_NAME : List Char := "langchain_chat_histories".toList

/-- The constructed state of a PostgresChatMessageHistory. -/
structure PostgresChatMessageHistory where
  pool : PgPool
  tableName : List Char
  sessionId : String
  deriving DecidableEq, Repr

/-- The constructor (postgres.ts lines 90-105): throw when neither pool nor
poolConfig is given; `this.pool = pool ?? new pg.Pool(poolConfig)`;
`const _tableName = tableName || this.tableName` (JS `||`, so a provided
empty name falls back to the default); escape exactly when `escapeTableName`
is truthy. -/
def constructHistory (fields : PostgresChatMessageHistoryInput) :
    Except String PostgresChatMessageHistory :=
  if fields.pool = none ∧ fields.poolConfig = none then
    Except.error
      "PostgresChatMessageHistory requires either a pool instance or pool config"
  else
    let pool : PgPool :=
      match fields.pool, fields.poolConfig with
      | some h, _ => PgPool.provided h
      | none, some c => PgPool.created c
      | none, none => PgPool.created ⟨0⟩
    let tbl : List Char :=
      if jsTruthyString fields.tableName then fields.tableName.getD []
      else DEFAULT_TABLE_NAME
    Except.ok
      { pool := pool
        tableName :=
          if fields.escapeTableName = some true then escapeIdentifier tbl else tbl
        sessionId := fields.sessionId }

/-- C10 counterexample: with a provided pool and a provided *empty* table
name, the constructor succeeds but the instance's table name is the default
(a non-empty name), not the provided empty name — `tableName || default` uses
JS truthiness, contradicting the claim that the table name equals the
provided name. -/
theorem c10_tablename_counterexample :
    constructHistory ⟨some [], "s", none, some 7, none⟩ =
      Except.ok ⟨PgPool.provided 7, DEFAULT_TABLE_NAME, "s"⟩ ∧
    DEFAULT_TABLE_NAME ≠ ([] : List Char) := ⟨rfl, by decide⟩

/-- C10 amended: the constructor throws iff neither pool nor poolConfig is
provided; when a pool is provided it is used (poolConfig ignored even when
both are given); the session id is kept; the table name is the provided name
when that name is non-empty and the default name otherwise, in both cases
identifier-escaped exactly when escapeTableName is true. -/
theorem c10_constructor_contract (fields : PostgresChatMessageHistoryInput) :
    ((∃ msg, constructHistory fields = Except.error msg) ↔
      (fields.pool = none ∧ fields.poolConfig = none)) ∧
    (∀ h, fields.pool = some h →
      ∃ st, constructHistory fields = Except.ok st ∧ st.pool = PgPool.provided h) ∧
    (∀ st, constructHistory fields = Except.ok st → st.sessionId = fields.sessionId) ∧
    (∀ st t, constructHistory fields = Except.ok st → fields.tableName = some t →
      t ≠ [] →
      st.tableName =
        if fields.escapeTableName = some true then escapeIdentifier t else t) ∧
    (∀ st, constructHistory fields = Except.ok st →
      jsTruthyString fields.tableName = false →
      st.tableName =
        if fields.escapeTableName = some true then escapeIdentifier DEFAULT_TABLE_NAME
        else DEFAULT_TABLE_NAME) := by
  by_cases hcond : fields.pool = none ∧ fields.poolConfig = none
  · have herr : constructHistory fields = Except.error
        "PostgresChatMessageHistory requires either a pool instance or pool config" := by
      simp [constructHistory, hcond]
    refine ⟨⟨fun _ => hcond, fun _ => ⟨_, herr⟩⟩, ?_, ?_, ?_, ?_⟩
    · intro h hp
      rw [hp] at hcond
      cases hcond.1
    · intro st hst
      rw [herr] at hst
      cases hst
    · intro st t hst
      rw [herr] at hst
      cases hst
    · intro st hst
      rw [herr] at hst
      cases hst
  · have hok : constructHistory fields = Except.ok
        { pool :=
            match fields.pool, fields.poolConfig with
            | some h, _ => PgPool.provided h
            | none, some c => PgPool.created c
            | none, none => PgPool.created ⟨0⟩
          tableName :=
            if fields.escapeTableName = some true then
              escapeIdentifier (if jsTruthyString fields.tableName then
                fields.tableName.getD [] else DEFAULT_TABLE_NAME)
            else
              (if jsTruthyString fields.tableName then fields.tableName.getD []
               else DEFAULT_TABLE_NAME)
          sessionId := fields.sessionId } := by
      simp [constructHistory, hcond]
    refine ⟨⟨?_, fun hc => absurd hc hcond⟩, ?_, ?_, ?_, ?_⟩
    · rintro ⟨msg, hmsg⟩
      rw [hok] at hmsg
      cases hmsg
    · intro h hp
      refine ⟨_, hok, ?_⟩
      rw [hp]
    · intro st hst
      rw [hok] at hst
      cases hst
      rfl
    · intro st t hst ht hne
      rw [hok] at hst
      cases hst
      have htruthy : jsTruthyString (some t) = true := decide_eq_true hne
      simp [ht, htruthy]
    · intro st hst hfal
      rw [hok] at hst
      cases hst
      simp [hfal]

/-- Witness for the amended C10: both a pool and a config provided, a
non-empty table name and escaping on: the provided pool is kept and the table
name is the escaped provided name. -/
theorem c10_constructor_contract_witness :
    constructHistory ⟨some "tbl".toList, "sess", some ⟨1⟩, some 7, some true⟩ =
      Except.ok ⟨PgPool.provided 7, escapeIdentifier "tbl".toList, "sess"⟩ := by
  obtain ⟨st, hok, hpool⟩ :=
    (c10_constructor_contract ⟨some "tbl".toList, "sess", some ⟨1⟩, some 7, some true⟩).2.1
      7 rfl
  have hname :=
    (c10_constructor_contract ⟨some "tbl".toList, "sess", some ⟨1⟩, some 7, some true⟩).2.2.2.1
      st "tbl".toList hok rfl (by decide)
  have hsess :=
    (c10_constructor_contract ⟨some "tbl".toList, "sess", some ⟨1⟩, some 7, some true⟩).2.2.1
      st hok
  rw [hok]
  cases st with
  | mk p tn sid =>
    simp only at hpool hname hsess
    rw [hpool, hsess]
    simp only [if_true] at hname
    rw [hname]

end LangchainCommunity
